import Mathlib

/-!
Verification of the core of the `bottom` terminal resource monitor.

Shallow embedding of `src/main.rs` and
`src/app/data_harvester/temperature.rs`.  Conventions:

* Rust `f64`/`f32` values (CPU %, memory %, temperatures) are modelled as `ℚ`.
  `NaN` never arises in the modelled computations, so `partial_cmp` on floats
  is modelled by the total comparator `fpCmp` (its `None => Equal` totalisation
  in the source is the identity on this domain).
* Rust `String` is modelled as `List Char`; its `Ord` instance is the
  lexicographic comparator `charsCmp`.
* `Vec<T>` is `List T`, `Option<T>` is `Option T`, `Result<T, E>` is
  `Except E T`.
* Rust's stable `sort_by(c)` is modelled by `List.insertionSort` over the
  relation `fun a b => c a b ≠ .gt` (insertion sort is stable, so it computes
  the same list as any stable sort for a total comparator).
* Functions of this repository that are not under `src/` (only their callers
  are) are modelled from the spec; each such definition carries a doc comment
  starting with `Modelled from the spec:`.
-/

namespace Bottom

/-- Totalisation of `partial_cmp` on a linearly ordered value domain (the
embedding of float and integer comparisons; the source's `None` branch for
incomparable floats is unreachable on `ℚ`). -/
def fpCmp {α : Type} [LinearOrder α] (a b : α) : Ordering :=
  if a < b then Ordering.lt else if b < a then Ordering.gt else Ordering.eq

/-- Lexicographic comparator on character lists: the embedding of `Ord` /
`partial_cmp` on Rust `String`. -/
def charsCmp : List Char → List Char → Ordering
  | [], [] => Ordering.eq
  | [], _ :: _ => Ordering.lt
  | _ :: _, [] => Ordering.gt
  | a :: as, b :: bs =>
    if a < b then Ordering.lt else if b < a then Ordering.gt else charsCmp as bs

/-! ### Temperature collector (`src/app/data_harvester/temperature.rs`) -/

/-- `TempHarvest` from `temperature.rs`. -/
structure TempHarvest where
  component_name : List Char
  temperature : ℚ
deriving DecidableEq, Repr

/-- `TemperatureType` from `temperature.rs` (default is `Celsius`). -/
inductive TemperatureType where
  | Celsius
  | Kelvin
  | Fahrenheit
deriving DecidableEq, Repr

/-- Unit conversion applied to a native Celsius reading, from the component
branch of `get_temperature_data` (lines 57-63 of `temperature.rs`); the sensor
branch requests the same units from the quantity library. -/
def convertTemp (temp_type : TemperatureType) (celsius : ℚ) : ℚ :=
  match temp_type with
  | TemperatureType.Celsius => celsius
  | TemperatureType.Kelvin => celsius + 273.15
  | TemperatureType.Fahrenheit => (celsius * (9 / 5)) + 32

/-- First `sort_by` comparator of `get_temperature_data` (lines 71-78):
temperature compared in reverse (greater temperature first), incomparable
pairs treated as equal. -/
def tempComparator (a b : TempHarvest) : Ordering :=
  match fpCmp a.temperature b.temperature with
  | Ordering.lt => Ordering.gt
  | Ordering.gt => Ordering.lt
  | Ordering.eq => Ordering.eq

/-- Second `sort_by` comparator of `get_temperature_data` (lines 80-84):
component name ascending, `unwrap_or(Equal)`. -/
def nameComparator (a b : TempHarvest) : Ordering :=
  charsCmp a.component_name b.component_name

/-- Sort relation induced by a `sort_by` comparator. -/
def tempRel (a b : TempHarvest) : Prop := tempComparator a b ≠ Ordering.gt

instance : DecidableRel tempRel := fun a b => by unfold tempRel; infer_instance

/-- Sort relation induced by the name comparator. -/
def nameRel (a b : TempHarvest) : Prop := nameComparator a b ≠ Ordering.gt

instance : DecidableRel nameRel := fun a b => by unfold nameRel; infer_instance

/-- The two sequential stable sort passes at the end of
`get_temperature_data`: temperature descending first, then component name
ascending. -/
def sortTemperatureVec (temperature_vec : List TempHarvest) : List TempHarvest :=
  List.insertionSort nameRel (List.insertionSort tempRel temperature_vec)

/-- One sensor reading delivered by the platform stream, carrying the native
Celsius value of the quantity. -/
structure Sensor where
  unit_name : List Char
  current_celsius : ℚ
deriving DecidableEq, Repr

/-- `get_temperature_data`: each successful reading is pushed (converted to
the chosen unit), a failed reading is skipped, and the accumulated vector is
sorted by the two passes and returned under `Ok`. -/
def get_temperature_data (readings : List (Except String Sensor))
    (temp_type : TemperatureType) : Except String (List TempHarvest) :=
  let temperature_vec : List TempHarvest :=
    readings.foldl
      (fun acc r =>
        match r with
        | Except.ok sensor =>
          acc ++ [{ component_name := sensor.unit_name,
                    temperature := convertTemp temp_type sensor.current_celsius }]
        | Except.error _ => acc)
      []
  Except.ok (sortTemperatureVec temperature_vec)

/-! ### Process data model and the grouping step (`src/main.rs`) -/

/-- `ProcessHarvest` from `app/data_harvester/processes.rs` with the fields
used by `main.rs` (`pid`, `name`, `cpu_usage_percent`, `mem_usage_percent`,
`pid_vec`). -/
structure ProcessHarvest where
  pid : ℕ
  name : List Char
  cpu_usage_percent : ℚ
  mem_usage_percent : ℚ
  pid_vec : Option (List ℕ)
deriving DecidableEq, Repr

/-- `type TempProcess = (f64, f64, Vec<u32>)` from `main.rs` line 327:
accumulated CPU %, accumulated MEM %, accumulated pid vector. -/
abbrev TempProcess : Type := ℚ × ℚ × List ℕ

/-- Lookup in the `BTreeMap<String, TempProcess>` model (a key-sorted
association list). -/
def mfind (k : List Char) : List (List Char × TempProcess) → Option TempProcess
  | [] => none
  | (k', v) :: rest => if k = k' then some v else mfind k rest

/-- Insertion (or replacement) in the `BTreeMap` model, keeping keys in
ascending lexicographic order. -/
def mapInsert (k : List Char) (v : TempProcess) :
    List (List Char × TempProcess) → List (List Char × TempProcess)
  | [] => [(k, v)]
  | (k', v') :: rest =>
    match charsCmp k k' with
    | Ordering.lt => (k, v) :: (k', v') :: rest
    | Ordering.eq => (k, v) :: rest
    | Ordering.gt => (k', v') :: mapInsert k v rest

/-- One iteration of the grouping loop of `handle_process_sorting`
(lines 339-346 of `main.rs`): `entry(name).or_insert((0.0, 0.0, vec![]))`,
then `+= cpu`, `+= mem`, `push(pid)`. -/
def processStep (process_map : List (List Char × TempProcess))
    (process : ProcessHarvest) : List (List Char × TempProcess) :=
  let entry_val : TempProcess := (mfind process.name process_map).getD (0, 0, [])
  mapInsert process.name
    (entry_val.1 + process.cpu_usage_percent,
     entry_val.2.1 + process.mem_usage_percent,
     entry_val.2.2 ++ [process.pid])
    process_map

/-- The grouping loop of `handle_process_sorting`: fold the raw process list
into the name-keyed map. -/
def buildProcessMap (list_of_processes : List ProcessHarvest) :
    List (List Char × TempProcess) :=
  list_of_processes.foldl processStep []

/-- The grouping step of `handle_process_sorting` (lines 338-362 of
`main.rs`): build the map, then emit one `ProcessHarvest` per bucket in the
map's key order, with `pid = 0` and `pid_vec = Some(accumulated pids)`. -/
def groupProcesses (list_of_processes : List ProcessHarvest) :
    List ProcessHarvest :=
  (buildProcessMap list_of_processes).map fun kv =>
    { pid := 0,
      cpu_usage_percent := kv.2.1,
      mem_usage_percent := kv.2.2.1,
      name := kv.1,
      pid_vec := some kv.2.2.2 }

/-- Accumulation of one raw process into an optional bucket value; the
abstract description of what `processStep` does to the bucket of that
process's name. -/
def upd (v : Option TempProcess) (p : ProcessHarvest) : Option TempProcess :=
  some ((v.getD (0, 0, [])).1 + p.cpu_usage_percent,
        (v.getD (0, 0, [])).2.1 + p.mem_usage_percent,
        (v.getD (0, 0, [])).2.2 ++ [p.pid])

/-- Keys of the association list strictly ascend (the `BTreeMap` invariant). -/
def KeySorted (m : List (List Char × TempProcess)) : Prop :=
  m.Pairwise fun x y => charsCmp x.1 y.1 = Ordering.lt

/-! ### Process sorting (`sort_processes` callers in `src/main.rs`) -/

/-- Modelled from the spec: the sort-key enumeration
`data_harvester::processes::ProcessSorting` (its file is not under `src/`;
`main.rs` names the `PID` and `CPU` variants, the spec's control surface
selects a sort column among CPU, memory, pid and name). -/
inductive ProcessSorting where
  | CPU
  | MEM
  | PID
  | NAME
deriving DecidableEq, Repr

/-- Modelled from the spec: the per-key comparator used by `sort_processes`
(not under `src/`): each sort key compares its column. -/
def processCmp (sorting_type : ProcessSorting) (a b : ProcessHarvest) : Ordering :=
  match sorting_type with
  | ProcessSorting.CPU => fpCmp a.cpu_usage_percent b.cpu_usage_percent
  | ProcessSorting.MEM => fpCmp a.mem_usage_percent b.mem_usage_percent
  | ProcessSorting.PID => fpCmp a.pid b.pid
  | ProcessSorting.NAME => charsCmp a.name b.name

/-- Sort relation of `sort_processes` for a key and direction: the `reverse`
flag flips the comparator's arguments. -/
def processRel (sorting_type : ProcessSorting) (reverse : Bool)
    (a b : ProcessHarvest) : Prop :=
  (if reverse then processCmp sorting_type b a else processCmp sorting_type a b)
    ≠ Ordering.gt

instance (k : ProcessSorting) (r : Bool) : DecidableRel (processRel k r) :=
  fun a b => by unfold processRel; infer_instance

/-- Modelled from the spec: `data_harvester::processes::sort_processes` (not
under `src/`): "stable sort on the chosen key over either the raw or grouped
list; `reverse` flag flips direction". -/
def sort_processes (list_of_processes : List ProcessHarvest)
    (sorting_type : ProcessSorting) (reverse : Bool) : List ProcessHarvest :=
  List.insertionSort (processRel sorting_type reverse) list_of_processes

/-- Sorting of the grouped list inside `handle_process_sorting`
(lines 364-378 of `main.rs`): a requested `PID` sort is replaced by the
default `CPU` descending sort, any other key is applied as requested. -/
def sortGroupedProcesses (process_sorting_type : ProcessSorting)
    (process_sorting_reverse : Bool) (grouped_list_of_processes : List ProcessHarvest) :
    List ProcessHarvest :=
  match process_sorting_type with
  | ProcessSorting.PID =>
    sort_processes grouped_list_of_processes ProcessSorting.CPU true
  | _ =>
    sort_processes grouped_list_of_processes process_sorting_type
      process_sorting_reverse

/-! ### Snapshot and application state (`src/main.rs` event loop) -/

/-- Modelled from the spec: `data_harvester::Data` (its module file is not
under `src/`): one snapshot bundles the process list plus
CPU/memory/swap/network/disk/temperature readings; `main.rs` uses its
`list_of_processes` and `grouped_list_of_processes` fields directly. -/
structure Data where
  list_of_processes : List ProcessHarvest
  grouped_list_of_processes : Option (List ProcessHarvest)
  temperature_sensors : List TempHarvest
  cpu : List ℚ
  memory : List ℚ
  swap : List ℚ
  network : List ℚ
  disks : List (List Char)
deriving DecidableEq, Repr

/-- Effect of `handle_process_sorting` (lines 329-384 of `main.rs`) on
`app.data`: the grouped list is rebuilt from the raw list and sorted (with
the PID-to-CPU substitution), and the raw list is sorted by the requested key
and direction. -/
def handleProcessSortingData (process_sorting_type : ProcessSorting)
    (process_sorting_reverse : Bool) (data : Data) : Data :=
  { data with
      grouped_list_of_processes :=
        some (sortGroupedProcesses process_sorting_type process_sorting_reverse
          (groupProcesses data.list_of_processes)),
      list_of_processes :=
        sort_processes data.list_of_processes process_sorting_type
          process_sorting_reverse }

/-- Display-ready projections held in `app.canvas_data`; the non-process
projections have the abstract payload type `γ` since `data_conversion.rs` is
out of the specified core. -/
structure CanvasData (γ : Type) where
  network_data : γ
  disk_data : γ
  temp_sensor_data : γ
  mem_data : γ
  swap_data : γ
  mem_label : γ
  swap_label : γ
  cpu_data : γ
  process_data : List ProcessHarvest
  grouped_process_data : List ProcessHarvest

/-- Modelled from the spec: the conversion functions of
`data_conversion.rs` and the search filters (`simple_update_process_row` /
`regex_update_process_row`), none of which are under `src/`.  Each is an
abstract function of the accumulated data collection (respectively of the
sorted snapshot; the active search settings are baked into
`filter_process_rows`). -/
structure Converters (γ : Type) where
  convert_network_data_points : List Data → γ
  update_disk_row : List Data → γ
  update_temp_row : List Data → γ
  update_mem_data_points : List Data → γ
  update_swap_data_points : List Data → γ
  update_mem_labels : List Data → γ × γ
  update_cpu_data_points : Bool → List Data → γ
  filter_process_rows : Data → List ProcessHarvest × List ProcessHarvest

/-- The application state mutated by the event merge loop (the fields of
`app::App` that `main.rs` reads and writes). -/
structure App (γ : Type) where
  is_frozen : Bool
  show_average_cpu : Bool
  process_sorting_type : ProcessSorting
  process_sorting_reverse : Bool
  is_grouped : Bool
  data : Data
  data_collection : List Data
  canvas_data : CanvasData γ

/-- Modelled from the spec: `DataCollection::eat_data` (not under `src/`)
accumulates the received snapshot into the collection. -/
def eat_data (data_collection : List Data) (data : Data) : List Data :=
  data_collection ++ [data]

/-- `handle_process_sorting` (lines 329-401 of `main.rs`): recompute
`app.data`'s grouped and sorted lists, then filter both into the canvas
process rows. -/
def handle_process_sorting {γ : Type} (fns : Converters γ) (app : App γ) :
    App γ :=
  let data := handleProcessSortingData app.process_sorting_type
    app.process_sorting_reverse app.data
  let tuple_results := fns.filter_process_rows data
  { app with
      data := data,
      canvas_data := { app.canvas_data with
        process_data := tuple_results.1,
        grouped_process_data := tuple_results.2 } }

/-- The `Event::Update(data)` branch of the event merge loop (lines 268-303
of `main.rs`): when not frozen, eat the snapshot, replace `app.data`,
recompute every display projection and re-run the process engine; when
frozen, do nothing. -/
def handleUpdate {γ : Type} (fns : Converters γ) (app : App γ) (data : Data) :
    App γ :=
  if app.is_frozen then app
  else
    let dc := eat_data app.data_collection data
    let memory_and_swap_labels := fns.update_mem_labels dc
    handle_process_sorting fns
      { app with
          data := data,
          data_collection := dc,
          canvas_data := { app.canvas_data with
            network_data := fns.convert_network_data_points dc,
            disk_data := fns.update_disk_row dc,
            temp_sensor_data := fns.update_temp_row dc,
            mem_data := fns.update_mem_data_points dc,
            swap_data := fns.update_swap_data_points dc,
            mem_label := memory_and_swap_labels.1,
            swap_label := memory_and_swap_labels.2,
            cpu_data := fns.update_cpu_data_points app.show_average_cpu dc } }

/-- The per-iteration sort-key fix right before the draw step (lines 307-313
of `main.rs`): if the sort key is `PID` while grouping is active, overwrite
the key with the default `CPU` and set the reverse flag. -/
def fixSortKey {γ : Type} (app : App γ) : App γ :=
  match app.process_sorting_type with
  | ProcessSorting.PID =>
    if app.is_grouped then
      { app with
          process_sorting_type := ProcessSorting.CPU,
          process_sorting_reverse := true }
    else app
  | _ => app

/-- Modelled from the spec: `App::toggle_grouping` (app.rs is not under
`src/`): the toggle-group command flips the group flag. -/
def toggle_grouping {γ : Type} (app : App γ) : App γ :=
  { app with is_grouped := !app.is_grouped }

/-! ### Startup configuration check (`src/main.rs` lines 80-97) -/

/-- Modelled from the spec: `utils::error::BottomError` (not under `src/`);
only the `InvalidArg` variant is needed here. -/
inductive BottomError where
  | InvalidArg (message : String)
deriving DecidableEq, Repr

/-- The refresh-rate validation at startup (lines 89-97 of `main.rs`). -/
def checkUpdateRate (update_rate_in_milliseconds : ℕ) :
    Except BottomError ℕ :=
  if update_rate_in_milliseconds < 250 then
    Except.error (BottomError.InvalidArg
      "Please set your update rate to be greater than 250 milliseconds.")
  else if update_rate_in_milliseconds > 18446744073709551615 then
    Except.error (BottomError.InvalidArg
      "Please set your update rate to be less than unsigned INT_MAX.")
  else Except.ok update_rate_in_milliseconds

/-! ### Input thread debounce (`src/main.rs` lines 152-175) -/

/-- The two input event classes distinguished by the input thread. -/
inductive InputClass where
  | key
  | mouse
deriving DecidableEq, Repr

/-- The two per-class debounce timers of the input thread, as absolute
instants in milliseconds. -/
structure DebounceState where
  keyboard_timer : ℕ
  mouse_timer : ℕ
deriving DecidableEq, Repr

/-- Timer of the given class. -/
def timerOf (s : DebounceState) : InputClass → ℕ
  | InputClass.key => s.keyboard_timer
  | InputClass.mouse => s.mouse_timer

/-- The input thread loop on a trace of raw events `(arrival instant, class)`:
an event is forwarded only when at least 20 ms elapsed since that class's
timer, and forwarding resets that class's timer (`duration_since` saturates
to zero, hence the truncated subtraction). -/
def debounceRun (s : DebounceState) :
    List (ℕ × InputClass) → List (ℕ × InputClass)
  | [] => []
  | (t, c) :: rest =>
    match c with
    | InputClass.key =>
      if 20 ≤ t - s.keyboard_timer then
        (t, InputClass.key) :: debounceRun { s with keyboard_timer := t } rest
      else debounceRun s rest
    | InputClass.mouse =>
      if 20 ≤ t - s.mouse_timer then
        (t, InputClass.mouse) :: debounceRun { s with mouse_timer := t } rest
      else debounceRun s rest

/-! ### Modifier-free key dispatch (`src/main.rs` lines 209-231) -/

/-- The key codes matched by the modifier-free branch. -/
inductive KeyCode where
  | char (c : Char)
  | up
  | down
  | left
  | right
  | home
  | endKey
  | esc
  | enter
  | tab
  | backspace
  | other
deriving DecidableEq, Repr

/-- Outcome of the modifier-free key dispatch: either the loop breaks (quit)
or an `app` method is invoked (modelled as an action token, the methods
themselves living in app.rs outside `src/`). -/
inductive AppAction where
  | quitLoop
  | skipToLast
  | skipToFirst
  | onUpKey
  | onDownKey
  | onLeftKey
  | onRightKey
  | onCharKey (c : Char)
  | onEsc
  | onEnter
  | onTab
  | onBackspace
  | noOp
deriving DecidableEq, Repr

/-- The modifier-free `KeyInput` dispatch: `q` breaks the loop unless the
application is capturing search text, in which case it falls through to the
ordinary character arm. -/
def dispatchKeyNoModifier (is_in_search_widget : Bool) (code : KeyCode) :
    AppAction :=
  if code = KeyCode.char 'q' ∧ is_in_search_widget = false then
    AppAction.quitLoop
  else
    match code with
    | KeyCode.endKey => AppAction.skipToLast
    | KeyCode.home => AppAction.skipToFirst
    | KeyCode.up => AppAction.onUpKey
    | KeyCode.down => AppAction.onDownKey
    | KeyCode.left => AppAction.onLeftKey
    | KeyCode.right => AppAction.onRightKey
    | KeyCode.char c => AppAction.onCharKey c
    | KeyCode.esc => AppAction.onEsc
    | KeyCode.enter => AppAction.onEnter
    | KeyCode.tab => AppAction.onTab
    | KeyCode.backspace => AppAction.onBackspace
    | KeyCode.other => AppAction.noOp

/-! ### Concrete inputs used by the witnesses -/

/-- The spec's grouping example: pids 1 and 2 share the name `x`, pid 3 has
name `y`. -/
def procExample : List ProcessHarvest :=
  [{ pid := 1, name := "x".data, cpu_usage_percent := 10, mem_usage_percent := 5,
     pid_vec := none },
   { pid := 2, name := "x".data, cpu_usage_percent := 5, mem_usage_percent := 5,
     pid_vec := none },
   { pid := 3, name := "y".data, cpu_usage_percent := 1, mem_usage_percent := 1,
     pid_vec := none }]

/-- An empty snapshot. -/
def emptyData : Data :=
  { list_of_processes := [],
    grouped_list_of_processes := none,
    temperature_sensors := [],
    cpu := [],
    memory := [],
    swap := [],
    network := [],
    disks := [] }

/-- An empty canvas over the trivial payload. -/
def emptyCanvas : CanvasData ℕ :=
  { network_data := 0,
    disk_data := 0,
    temp_sensor_data := 0,
    mem_data := 0,
    swap_data := 0,
    mem_label := 0,
    swap_label := 0,
    cpu_data := 0,
    process_data := [],
    grouped_process_data := [] }

/-- Trivial converter instantiation for the witnesses. -/
def trivialConverters : Converters ℕ :=
  { convert_network_data_points := fun _ => 0,
    update_disk_row := fun _ => 0,
    update_temp_row := fun _ => 0,
    update_mem_data_points := fun _ => 0,
    update_swap_data_points := fun _ => 0,
    update_mem_labels := fun _ => (0, 0),
    update_cpu_data_points := fun _ _ => 0,
    filter_process_rows := fun d =>
      (d.list_of_processes, (d.grouped_list_of_processes).getD []) }

/-- A frozen application state with a PID sort requested and grouping on. -/
def frozenApp : App ℕ :=
  { is_frozen := true,
    show_average_cpu := false,
    process_sorting_type := ProcessSorting.PID,
    process_sorting_reverse := false,
    is_grouped := true,
    data := emptyData,
    data_collection := [],
    canvas_data := emptyCanvas }

/-- A small grouped list used by the sort-substitution witness. -/
def groupedExample : List ProcessHarvest :=
  [{ pid := 0, name := "x".data, cpu_usage_percent := 1, mem_usage_percent := 1,
     pid_vec := some [1] },
   { pid := 0, name := "y".data, cpu_usage_percent := 2, mem_usage_percent := 2,
     pid_vec := some [2] }]

/-! ### Properties of the comparators -/

theorem charsCmp_self (a : List Char) : charsCmp a a = Ordering.eq := by
  induction a with
  | nil => rfl
  | cons x xs ih => simp [charsCmp, lt_irrefl, ih]

theorem charsCmp_eq_iff {a b : List Char} :
    charsCmp a b = Ordering.eq ↔ a = b := by
  induction a generalizing b with
  | nil => cases b <;> simp [charsCmp]
  | cons x xs ih =>
    cases b with
    | nil => simp [charsCmp]
    | cons y ys =>
      rcases lt_trichotomy x y with h | h | h
      · simp [charsCmp, h, ne_of_lt h]
      · subst h
        simp [charsCmp, lt_irrefl, ih]
      · simp [charsCmp, h, asymm h, ne_of_gt h]

theorem charsCmp_swap (a b : List Char) :
    (charsCmp a b).swap = charsCmp b a := by
  induction a generalizing b with
  | nil => cases b <;> rfl
  | cons x xs ih =>
    cases b with
    | nil => rfl
    | cons y ys =>
      rcases lt_trichotomy x y with h | h | h
      · simp [charsCmp, h, asymm h, Ordering.swap]
      · subst h
        simp [charsCmp, lt_irrefl, ih]
      · simp [charsCmp, h, asymm h, Ordering.swap]

theorem charsCmp_gt_iff {a b : List Char} :
    charsCmp a b = Ordering.gt ↔ charsCmp b a = Ordering.lt := by
  rw [← charsCmp_swap a b]
  cases charsCmp a b <;> simp [Ordering.swap]

theorem charsCmp_lt_trans {a b c : List Char}
    (hab : charsCmp a b = Ordering.lt) (hbc : charsCmp b c = Ordering.lt) :
    charsCmp a c = Ordering.lt := by
  induction a generalizing b c with
  | nil =>
    cases b with
    | nil => simp [charsCmp] at hab
    | cons y ys =>
      cases c with
      | nil => simp [charsCmp] at hbc
      | cons z zs => rfl
  | cons x xs ih =>
    cases b with
    | nil => simp [charsCmp] at hab
    | cons y ys =>
      cases c with
      | nil => simp [charsCmp] at hbc
      | cons z zs =>
        rcases lt_trichotomy x y with h1 | h1 | h1
        · rcases lt_trichotomy y z with h2 | h2 | h2
          · simp [charsCmp, lt_trans h1 h2]
          · subst h2; simp [charsCmp, h1]
          · simp [charsCmp, asymm h2, h2] at hbc
        · subst h1
          rcases lt_trichotomy x z with h2 | h2 | h2
          · simp [charsCmp, h2]
          · subst h2
            simp [charsCmp, lt_irrefl] at hab hbc ⊢
            exact ih hab hbc
          · simp [charsCmp, asymm h2, h2] at hbc
        · simp [charsCmp, asymm h1, h1] at hab

theorem charsCmp_lt_iff_lex {a b : List Char} :
    charsCmp a b = Ordering.lt ↔ List.Lex (· < ·) a b := by
  induction a generalizing b with
  | nil =>
    cases b with
    | nil =>
      constructor
      · intro h; simp [charsCmp] at h
      · intro h; cases h
    | cons y ys =>
      constructor
      · intro _; exact List.Lex.nil
      · intro _; rfl
  | cons x xs ih =>
    cases b with
    | nil =>
      constructor
      · intro h; simp [charsCmp] at h
      · intro h; cases h
    | cons y ys =>
      rcases lt_trichotomy x y with h | h | h
      · constructor
        · intro _; exact List.Lex.rel h
        · intro _; simp [charsCmp, h]
      · subst h
        constructor
        · intro hc
          refine List.Lex.cons (ih.mp ?_)
          simpa [charsCmp, lt_irrefl] using hc
        · intro hl
          cases hl with
          | cons h' =>
            simp only [charsCmp, lt_irrefl, if_false]
            exact ih.mpr h'
          | rel h' => exact absurd h' (lt_irrefl x)
      · constructor
        · intro hc; simp [charsCmp, asymm h, h] at hc
        · intro hl
          cases hl with
          | cons h' => exact absurd h (lt_irrefl x)
          | rel h' => exact absurd h' (asymm h)

theorem charsCmp_ne_gt_iff {a b : List Char} :
    charsCmp a b ≠ Ordering.gt ↔ (charsCmp a b = Ordering.lt ∨ a = b) := by
  cases h : charsCmp a b with
  | lt => simp
  | eq => simp [charsCmp_eq_iff.mp h]
  | gt =>
    have hne : a ≠ b := by
      intro e; subst e
      rw [charsCmp_self] at h
      cases h
    simp [hne]

theorem charsCmp_le_trans {a b c : List Char}
    (h1 : charsCmp a b ≠ Ordering.gt) (h2 : charsCmp b c ≠ Ordering.gt) :
    charsCmp a c ≠ Ordering.gt := by
  rcases charsCmp_ne_gt_iff.mp h1 with h1' | h1'
  · rcases charsCmp_ne_gt_iff.mp h2 with h2' | h2'
    · exact charsCmp_ne_gt_iff.mpr (Or.inl (charsCmp_lt_trans h1' h2'))
    · subst h2'
      exact charsCmp_ne_gt_iff.mpr (Or.inl h1')
  · subst h1'
    exact h2

theorem fpCmp_lt_iff {α : Type} [LinearOrder α] {a b : α} :
    fpCmp a b = Ordering.lt ↔ a < b := by
  unfold fpCmp
  split_ifs with h1 h2 <;> simp [h1, *]

theorem fpCmp_gt_iff {α : Type} [LinearOrder α] {a b : α} :
    fpCmp a b = Ordering.gt ↔ b < a := by
  unfold fpCmp
  split_ifs with h1 h2
  · simp [asymm h1]
  · simp [h2]
  · simp [h2]

theorem fpCmp_eq_iff {α : Type} [LinearOrder α] {a b : α} :
    fpCmp a b = Ordering.eq ↔ a = b := by
  unfold fpCmp
  split_ifs with h1 h2
  · simp [ne_of_lt h1]
  · simp [ne_of_gt h2]
  · simp [le_antisymm (not_lt.mp h2) (not_lt.mp h1)]

theorem fpCmp_ne_gt_iff {α : Type} [LinearOrder α] {a b : α} :
    fpCmp a b ≠ Ordering.gt ↔ a ≤ b := by
  rw [ne_eq, fpCmp_gt_iff, not_lt]

/-! ### Properties of the sort relations -/

theorem tempRel_iff {a b : TempHarvest} :
    tempRel a b ↔ b.temperature ≤ a.temperature := by
  unfold tempRel tempComparator
  cases h : fpCmp a.temperature b.temperature with
  | lt => simp [h, not_le_of_lt (fpCmp_lt_iff.mp h)]
  | eq => simp [h, le_of_eq (fpCmp_eq_iff.mp h).symm]
  | gt => simp [h, le_of_lt (fpCmp_gt_iff.mp h)]

theorem nameRel_iff {a b : TempHarvest} :
    nameRel a b ↔
      (List.Lex (· < ·) a.component_name b.component_name
        ∨ a.component_name = b.component_name) := by
  unfold nameRel nameComparator
  rw [charsCmp_ne_gt_iff, charsCmp_lt_iff_lex]

theorem nameRel_total : ∀ a b : TempHarvest, nameRel a b ∨ nameRel b a := by
  intro a b
  unfold nameRel nameComparator
  cases h : charsCmp a.component_name b.component_name with
  | lt => left; simp [h]
  | eq => left; simp [h]
  | gt =>
    right
    rw [charsCmp_gt_iff] at h
    simp [h]

theorem nameRel_trans :
    ∀ a b c : TempHarvest, nameRel a b → nameRel b c → nameRel a c :=
  fun _ _ _ hab hbc => charsCmp_le_trans hab hbc

theorem tempRel_total : ∀ a b : TempHarvest, tempRel a b ∨ tempRel b a := by
  intro a b
  rw [tempRel_iff, tempRel_iff]
  exact le_total b.temperature a.temperature

theorem tempRel_trans :
    ∀ a b c : TempHarvest, tempRel a b → tempRel b c → tempRel a c := by
  intro a b c hab hbc
  rw [tempRel_iff] at hab hbc ⊢
  exact le_trans hbc hab

theorem processRel_CPU_true_iff {a b : ProcessHarvest} :
    processRel ProcessSorting.CPU true a b ↔
      b.cpu_usage_percent ≤ a.cpu_usage_percent := by
  unfold processRel processCmp
  simp only [if_true]
  rw [fpCmp_ne_gt_iff]

/-! ### Properties of the grouping map -/

theorem keys_mapInsert {k : List Char} {v : TempProcess}
    {m : List (List Char × TempProcess)} :
    ∀ x ∈ mapInsert k v m, x.1 = k ∨ x ∈ m := by
  induction m with
  | nil =>
    intro x hx
    simp [mapInsert] at hx
    simp [hx]
  | cons kv rest ih =>
    intro x hx
    rw [mapInsert] at hx
    rcases hc : charsCmp k kv.1 with _ | _ | _ <;> rw [hc] at hx
    · rcases List.mem_cons.mp hx with h | h
      · exact Or.inl (by simp [h])
      · exact Or.inr h
    · rcases List.mem_cons.mp hx with h | h
      · exact Or.inl (by simp [h])
      · exact Or.inr (List.mem_cons_of_mem _ h)
    · rcases List.mem_cons.mp hx with h | h
      · exact Or.inr (by simp [h])
      · rcases ih x h with h' | h'
        · exact Or.inl h'
        · exact Or.inr (List.mem_cons_of_mem _ h')

theorem keySorted_mapInsert {k : List Char} {v : TempProcess}
    {m : List (List Char × TempProcess)} (hm : KeySorted m) :
    KeySorted (mapInsert k v m) := by
  induction m with
  | nil =>
    simp [mapInsert, KeySorted]
  | cons kv rest ih =>
    rw [KeySorted, List.pairwise_cons] at hm
    obtain ⟨h1, h2⟩ := hm
    rw [mapInsert]
    rcases hc : charsCmp k kv.1 with _ | _ | _
    · rw [KeySorted, List.pairwise_cons]
      refine ⟨?_, ?_⟩
      · intro y hy
        rcases List.mem_cons.mp hy with h | h
        · subst h; exact hc
        · exact charsCmp_lt_trans hc (h1 y h)
      · exact List.Pairwise.cons h1 h2
    · rw [KeySorted, List.pairwise_cons]
      have hk : k = kv.1 := charsCmp_eq_iff.mp hc
      exact ⟨fun y hy => hk ▸ h1 y hy, h2⟩
    · rw [KeySorted, List.pairwise_cons]
      refine ⟨?_, ih h2⟩
      intro y hy
      rcases keys_mapInsert y hy with h | h
      · rw [h]
        exact charsCmp_gt_iff.mp hc
      · exact h1 y h

theorem mfind_mapInsert_self (k : List Char) (v : TempProcess)
    (m : List (List Char × TempProcess)) :
    mfind k (mapInsert k v m) = some v := by
  induction m with
  | nil => simp [mapInsert, mfind]
  | cons kv rest ih =>
    rw [mapInsert]
    rcases hc : charsCmp k kv.1 with _ | _ | _
    · simp [mfind]
    · simp [mfind]
    · have hne : k ≠ kv.1 := by
        intro e
        rw [e, charsCmp_self] at hc
        cases hc
      simp [mfind, hne, ih]

theorem mfind_mapInsert_ne {k₀ k : List Char} (hne : k₀ ≠ k)
    (v : TempProcess) (m : List (List Char × TempProcess)) :
    mfind k₀ (mapInsert k v m) = mfind k₀ m := by
  induction m with
  | nil => simp [mapInsert, mfind, hne]
  | cons kv rest ih =>
    rw [mapInsert]
    rcases hc : charsCmp k kv.1 with _ | _ | _
    · simp [mfind, hne]
    · have hk : k = kv.1 := charsCmp_eq_iff.mp hc
      rw [mfind, mfind, if_neg hne, if_neg (hk ▸ hne)]
    · by_cases h0 : k₀ = kv.1
      · simp [mfind, h0]
      · simp [mfind, h0, ih]

theorem mem_iff_mfind {m : List (List Char × TempProcess)} (hm : KeySorted m)
    (k : List Char) (v : TempProcess) :
    (k, v) ∈ m ↔ mfind k m = some v := by
  induction m with
  | nil => simp [mfind]
  | cons kv rest ih =>
    obtain ⟨k₀, v₀⟩ := kv
    rw [KeySorted, List.pairwise_cons] at hm
    obtain ⟨h1, h2⟩ := hm
    by_cases hk : k = k₀
    · subst hk
      rw [mfind, if_pos rfl]
      constructor
      · intro hmem
        rcases List.mem_cons.mp hmem with h | h
        · injection h with h' hv
          rw [hv]
        · have hx : charsCmp k k = Ordering.lt := h1 (k, v) h
          rw [charsCmp_self] at hx
          cases hx
      · intro h
        injection h with h
        rw [h]
        exact List.mem_cons_self _ _
    · rw [mfind, if_neg hk, ← ih h2]
      constructor
      · intro hmem
        rcases List.mem_cons.mp hmem with h | h
        · exact absurd (congrArg Prod.fst h) hk
        · exact h
      · intro h
        exact List.mem_cons_of_mem _ h

theorem buildStep_invariant (l : List ProcessHarvest) :
    ∀ m : List (List Char × TempProcess), KeySorted m →
      KeySorted (l.foldl processStep m)
      ∧ ∀ k, mfind k (l.foldl processStep m)
          = (l.filter fun p => p.name = k).foldl upd (mfind k m) := by
  induction l with
  | nil =>
    intro m hm
    exact ⟨hm, fun k => by simp⟩
  | cons p rest ih =>
    intro m hm
    have hm' : KeySorted (processStep m p) := keySorted_mapInsert hm
    obtain ⟨hs, hf⟩ := ih (processStep m p) hm'
    refine ⟨by simpa using hs, fun k => ?_⟩
    rw [List.foldl_cons, hf k]
    by_cases hk : p.name = k
    · subst hk
      rw [List.filter_cons_of_pos (by simp), List.foldl_cons]
      have hself : mfind p.name (processStep m p) = upd (mfind p.name m) p :=
        mfind_mapInsert_self p.name _ m
      rw [hself]
    · rw [List.filter_cons_of_neg (by simp [hk])]
      have hne : mfind k (processStep m p) = mfind k m :=
        mfind_mapInsert_ne (fun e => hk e.symm) _ m
      rw [hne]

theorem foldl_upd_some (ps : List ProcessHarvest) :
    ∀ t : TempProcess,
      ps.foldl upd (some t)
        = some (t.1 + (ps.map fun p => p.cpu_usage_percent).sum,
                t.2.1 + (ps.map fun p => p.mem_usage_percent).sum,
                t.2.2 ++ ps.map fun p => p.pid) := by
  induction ps with
  | nil => intro t; simp
  | cons p rest ih =>
    intro t
    rw [List.foldl_cons]
    have hstep : upd (some t) p
        = some (t.1 + p.cpu_usage_percent, t.2.1 + p.mem_usage_percent,
                t.2.2 ++ [p.pid]) := rfl
    rw [hstep, ih]
    simp [add_assoc]

theorem foldl_upd_none {ps : List ProcessHarvest} (h : ps ≠ []) :
    ps.foldl upd none
      = some ((ps.map fun p => p.cpu_usage_percent).sum,
              (ps.map fun p => p.mem_usage_percent).sum,
              ps.map fun p => p.pid) := by
  cases ps with
  | nil => exact absurd rfl h
  | cons p rest =>
    rw [List.foldl_cons]
    have hstep : upd none p
        = some ((0 : ℚ) + p.cpu_usage_percent, (0 : ℚ) + p.mem_usage_percent,
                ([] : List ℕ) ++ [p.pid]) := rfl
    rw [hstep, foldl_upd_some]
    simp [add_assoc]

theorem mfind_buildProcessMap (l : List ProcessHarvest) (k : List Char) :
    mfind k (buildProcessMap l)
      = (l.filter fun p => p.name = k).foldl upd none := by
  have h := (buildStep_invariant l [] List.Pairwise.nil).2 k
  simpa [buildProcessMap, mfind] using h

theorem keySorted_buildProcessMap (l : List ProcessHarvest) :
    KeySorted (buildProcessMap l) :=
  (buildStep_invariant l [] List.Pairwise.nil).1

/-! ### Claim C1 -/

/-- C1: the grouping step of `handle_process_sorting` produces exactly one
row per distinct process name (the emitted names are strictly ascending in
lexicographic order and cover exactly the raw names), and each row carries
the sum of the CPU percentages, the sum of the MEM percentages, pid 0, and
`pid_vec = some` of the non-empty list of exactly the contributing pids. -/
theorem process_grouping_correct (l : List ProcessHarvest) :
    (((groupProcesses l).map fun r => r.name).Pairwise
        fun a b => List.Lex (· < ·) a b)
    ∧ (∀ n : List Char,
        (n ∈ (groupProcesses l).map fun r => r.name)
          ↔ n ∈ l.map fun p => p.name)
    ∧ ∀ r ∈ groupProcesses l,
        r.pid = 0
        ∧ r.cpu_usage_percent
            = ((l.filter fun p => p.name = r.name).map
                fun p => p.cpu_usage_percent).sum
        ∧ r.mem_usage_percent
            = ((l.filter fun p => p.name = r.name).map
                fun p => p.mem_usage_percent).sum
        ∧ r.pid_vec
            = some ((l.filter fun p => p.name = r.name).map fun p => p.pid)
        ∧ (l.filter fun p => p.name = r.name) ≠ [] := by
  refine ⟨?_, ?_, ?_⟩
  · have h := keySorted_buildProcessMap l
    simp only [groupProcesses, List.map_map, List.pairwise_map]
    exact h.imp fun hx => charsCmp_lt_iff_lex.mp hx
  · intro n
    constructor
    · intro hn
      simp only [groupProcesses, List.map_map, List.mem_map,
        Function.comp] at hn
      obtain ⟨kv, hkv, hname⟩ := hn
      have hmem : mfind kv.1 (buildProcessMap l) = some kv.2 :=
        (mem_iff_mfind (keySorted_buildProcessMap l) kv.1 kv.2).mp hkv
      rw [mfind_buildProcessMap] at hmem
      by_cases hf : (l.filter fun p => p.name = kv.1) = []
      · rw [hf] at hmem
        cases hmem
      · obtain ⟨p, hp⟩ := List.exists_mem_of_ne_nil _ hf
        have hp' := List.mem_filter.mp hp
        refine List.mem_map.mpr ⟨p, hp'.1, ?_⟩
        have : p.name = kv.1 := by simpa using hp'.2
        rw [this]
        exact hname
    · intro hn
      obtain ⟨p, hpl, hpn⟩ := List.mem_map.mp hn
      have hf : (l.filter fun q => q.name = n) ≠ [] := by
        simp only [ne_eq, List.filter_eq_nil_iff]
        intro hall
        exact absurd hpn (by simpa using hall p hpl)
      have hmem := mfind_buildProcessMap l n
      rw [foldl_upd_none hf] at hmem
      have hin := (mem_iff_mfind (keySorted_buildProcessMap l) n _).mpr hmem
      simp only [groupProcesses, List.map_map, List.mem_map, Function.comp]
      exact ⟨_, hin, rfl⟩
  · intro r hr
    simp only [groupProcesses, List.mem_map] at hr
    obtain ⟨kv, hkv, hr_eq⟩ := hr
    have hmem : mfind kv.1 (buildProcessMap l) = some kv.2 :=
      (mem_iff_mfind (keySorted_buildProcessMap l) kv.1 kv.2).mp hkv
    rw [mfind_buildProcessMap] at hmem
    by_cases hf : (l.filter fun p => p.name = kv.1) = []
    · rw [hf] at hmem
      cases hmem
    · rw [foldl_upd_none hf] at hmem
      injection hmem with hinj
      subst hr_eq
      refine ⟨rfl, ?_, ?_, ?_, hf⟩
      · rw [← hinj]
      · rw [← hinj]
      · rw [← hinj]

/-- Witness for C1 at the spec's grouping example: the head row of the
grouped output (the `x` bucket) has pid 0 and carries exactly the
contributing pids; the emitted names strictly ascend. -/
theorem process_grouping_correct_witness :
    (((groupProcesses procExample).map fun r => r.name).Pairwise
        fun a b => List.Lex (· < ·) a b)
    ∧ ((groupProcesses procExample).head (by decide)).pid = 0
    ∧ ((groupProcesses procExample).head (by decide)).pid_vec
        = some ((procExample.filter fun p =>
            p.name = ((groupProcesses procExample).head (by decide)).name).map
              fun p => p.pid) :=
  ⟨(process_grouping_correct procExample).1,
   ((process_grouping_correct procExample).2.2 _ (List.head_mem (by decide))).1,
   ((process_grouping_correct procExample).2.2 _
      (List.head_mem (by decide))).2.2.2.1⟩

/-! ### Claims C2, C6, C7 -/

/-- C2: `get_temperature_data` applies two sequential stable sort passes,
first by temperature descending, then by component name ascending; hence the
first pass alone leaves the list sorted by descending temperature, the full
pipeline leaves it sorted by ascending name, and on the spec's example rows
the final order is alphabetical, not temperature-primary. -/
theorem temperature_two_pass_sort :
    (∀ l : List TempHarvest,
      (List.insertionSort tempRel l).Sorted
        fun a b => b.temperature ≤ a.temperature)
    ∧ (∀ l : List TempHarvest,
      (sortTemperatureVec l).Sorted
        fun a b =>
          List.Lex (· < ·) a.component_name b.component_name
            ∨ a.component_name = b.component_name)
    ∧ sortTemperatureVec
        [{ component_name := "b".data, temperature := 10 },
         { component_name := "a".data, temperature := 10 },
         { component_name := "c".data, temperature := 20 }]
        = [{ component_name := "a".data, temperature := 10 },
           { component_name := "b".data, temperature := 10 },
           { component_name := "c".data, temperature := 20 }] := by
  refine ⟨?_, ?_, by decide⟩
  · intro l
    haveI : IsTotal TempHarvest tempRel := ⟨tempRel_total⟩
    haveI : IsTrans TempHarvest tempRel := ⟨tempRel_trans⟩
    exact (List.sorted_insertionSort tempRel l).imp fun hab => tempRel_iff.mp hab
  · intro l
    haveI : IsTotal TempHarvest nameRel := ⟨nameRel_total⟩
    haveI : IsTrans TempHarvest nameRel := ⟨nameRel_trans⟩
    exact (List.sorted_insertionSort nameRel
      (List.insertionSort tempRel l)).imp fun hab => nameRel_iff.mp hab

/-- C6: for a Celsius reading `c` obtained from a component, the produced
temperature is `c` for Celsius, `c + 273.15` for Kelvin, and
`c * 9 / 5 + 32` for Fahrenheit. -/
theorem temperature_unit_conversion (c : ℚ) :
    convertTemp TemperatureType.Celsius c = c
    ∧ convertTemp TemperatureType.Kelvin c = c + 273.15
    ∧ convertTemp TemperatureType.Fahrenheit c = c * 9 / 5 + 32 :=
  ⟨rfl, rfl, by unfold convertTemp; ring⟩

theorem tempFold_eq_filterMap (temp_type : TemperatureType)
    (readings : List (Except String Sensor)) :
    ∀ acc : List TempHarvest,
      readings.foldl
        (fun acc r =>
          match r with
          | Except.ok sensor =>
            acc ++ [{ component_name := sensor.unit_name,
                      temperature := convertTemp temp_type sensor.current_celsius }]
          | Except.error _ => acc)
        acc
      = acc ++ (readings.filterMap Except.toOption).map
          fun sensor =>
            { component_name := sensor.unit_name,
              temperature := convertTemp temp_type sensor.current_celsius } := by
  induction readings with
  | nil => intro acc; simp
  | cons r rest ih =>
    intro acc
    cases r with
    | ok sensor => simp [Except.toOption, ih]
    | error e => simp [Except.toOption, ih]

/-- C7: `get_temperature_data` never returns an error: for every input it
returns `Ok` of the sorted conversions of exactly the successful sensor
reads, the failed reads contributing nothing. -/
theorem temperature_collection_never_errors
    (readings : List (Except String Sensor)) (temp_type : TemperatureType) :
    get_temperature_data readings temp_type
      = Except.ok (sortTemperatureVec
          ((readings.filterMap Except.toOption).map fun sensor =>
            { component_name := sensor.unit_name,
              temperature := convertTemp temp_type sensor.current_celsius }))
    ∧ ∀ e : String, get_temperature_data readings temp_type ≠ Except.error e := by
  have hok : get_temperature_data readings temp_type
      = Except.ok (sortTemperatureVec
          ((readings.filterMap Except.toOption).map fun sensor =>
            { component_name := sensor.unit_name,
              temperature := convertTemp temp_type sensor.current_celsius })) := by
    unfold get_temperature_data
    rw [tempFold_eq_filterMap]
    simp
  refine ⟨hok, fun e hcontra => ?_⟩
  rw [hok] at hcontra
  cases hcontra

/-- Witness for C7: one successful and one failed reading produce `Ok`, never
the error. -/
theorem temperature_collection_never_errors_witness :
    get_temperature_data
        [Except.ok { unit_name := "a".data, current_celsius := 10 },
         Except.error "sensor read failed"] TemperatureType.Celsius
      ≠ Except.error "sensor read failed" :=
  (temperature_collection_never_errors
    [Except.ok { unit_name := "a".data, current_celsius := 10 },
     Except.error "sensor read failed"] TemperatureType.Celsius).2
    "sensor read failed"

/-! ### Claims C3 and C10 -/

/-- C3: when the requested sort key is PID, the grouped list is sorted by the
default key CPU in descending order instead of by PID (and that output really
is CPU-descending); and in the event merge loop's per-iteration re-check,
when grouping is simultaneously active the stored key itself is forced back
to CPU with the reverse flag set. -/
theorem grouped_pid_sort_substitution {γ : Type} (app : App γ)
    (g : List ProcessHarvest)
    (h : app.process_sorting_type = ProcessSorting.PID) :
    sortGroupedProcesses app.process_sorting_type app.process_sorting_reverse g
      = sort_processes g ProcessSorting.CPU true
    ∧ (sort_processes g ProcessSorting.CPU true).Sorted
        (fun a b => b.cpu_usage_percent ≤ a.cpu_usage_percent)
    ∧ (app.is_grouped = true →
        fixSortKey app
          = { app with process_sorting_type := ProcessSorting.CPU,
                       process_sorting_reverse := true }) := by
  refine ⟨?_, ?_, ?_⟩
  · rw [h]
    rfl
  · haveI : IsTotal ProcessHarvest (processRel ProcessSorting.CPU true) :=
      ⟨fun a b => by
        simp only [processRel_CPU_true_iff]
        exact le_total b.cpu_usage_percent a.cpu_usage_percent⟩
    haveI : IsTrans ProcessHarvest (processRel ProcessSorting.CPU true) :=
      ⟨fun a b c hab hbc => by
        rw [processRel_CPU_true_iff] at hab hbc ⊢
        exact le_trans hbc hab⟩
    exact (List.sorted_insertionSort (processRel ProcessSorting.CPU true)
      g).imp fun hab => processRel_CPU_true_iff.mp hab
  · intro hg
    simp [fixSortKey, h, hg]

/-- Witness for C3 at a concrete two-row grouped list and a concrete state
with a PID sort requested while grouping is active. -/
theorem grouped_pid_sort_substitution_witness :
    sortGroupedProcesses frozenApp.process_sorting_type
        frozenApp.process_sorting_reverse groupedExample
      = sort_processes groupedExample ProcessSorting.CPU true
    ∧ fixSortKey frozenApp
        = { frozenApp with process_sorting_type := ProcessSorting.CPU,
                           process_sorting_reverse := true } :=
  ⟨(grouped_pid_sort_substitution frozenApp groupedExample rfl).1,
   (grouped_pid_sort_substitution frozenApp groupedExample rfl).2.2 rfl⟩

/-- C10: after the per-iteration fix that runs right before the draw step,
no state has grouping active together with sort key PID; when that
combination arises the key is overwritten to CPU with the reverse flag set,
and the overwrite persists: after grouping is toggled off, subsequent
iterations keep the key at CPU (the requested PID key is not restored). -/
theorem pid_group_sort_invariant {γ : Type} (app : App γ)
    (h1 : app.process_sorting_type = ProcessSorting.PID)
    (h2 : app.is_grouped = true) :
    (∀ a : App γ, ¬((fixSortKey a).is_grouped = true
        ∧ (fixSortKey a).process_sorting_type = ProcessSorting.PID))
    ∧ fixSortKey app
        = { app with process_sorting_type := ProcessSorting.CPU,
                     process_sorting_reverse := true }
    ∧ (toggle_grouping (fixSortKey app)).is_grouped = false
    ∧ (fixSortKey (toggle_grouping (fixSortKey app))).process_sorting_type
        = ProcessSorting.CPU
    ∧ (fixSortKey (toggle_grouping (fixSortKey app))).process_sorting_reverse
        = true := by
  have hfix : fixSortKey app
      = { app with process_sorting_type := ProcessSorting.CPU,
                   process_sorting_reverse := true } := by
    simp [fixSortKey, h1, h2]
  refine ⟨?_, hfix, ?_, ?_, ?_⟩
  · intro a hcontra
    obtain ⟨hg, hp⟩ := hcontra
    rcases hpt : a.process_sorting_type with _ | _ | _ | _
    · simp [fixSortKey, hpt] at hp
    · simp [fixSortKey, hpt] at hp
    · by_cases hgr : a.is_grouped = true
      · simp [fixSortKey, hpt, hgr] at hp
      · simp [fixSortKey, hpt, hgr] at hg
    · simp [fixSortKey, hpt] at hp
  · rw [hfix]
    simp [toggle_grouping, h2]
  · rw [hfix]
    rfl
  · rw [hfix]
    rfl

/-- Witness for C10 at a concrete state with PID sort and grouping active. -/
theorem pid_group_sort_invariant_witness :
    fixSortKey frozenApp
      = { frozenApp with process_sorting_type := ProcessSorting.CPU,
                         process_sorting_reverse := true }
    ∧ (fixSortKey (toggle_grouping (fixSortKey frozenApp))).process_sorting_type
        = ProcessSorting.CPU :=
  ⟨(pid_group_sort_invariant frozenApp rfl rfl).2.1,
   (pid_group_sort_invariant frozenApp rfl rfl).2.2.2.1⟩

/-! ### Claim C5 -/

/-- C5: startup configuration validation returns an `InvalidArg` error for
every refresh rate strictly below 250 ms and accepts exactly 250 ms. -/
theorem refresh_rate_boundary (r : ℕ) (h : r < 250) :
    checkUpdateRate r
      = Except.error (BottomError.InvalidArg
          "Please set your update rate to be greater than 250 milliseconds.")
    ∧ checkUpdateRate 250 = Except.ok 250 := by
  constructor
  · simp [checkUpdateRate, h]
  · rfl

/-- Witness for C5 at 249 ms (rejected) and 250 ms (accepted). -/
theorem refresh_rate_boundary_witness :
    checkUpdateRate 249
      = Except.error (BottomError.InvalidArg
          "Please set your update rate to be greater than 250 milliseconds.")
    ∧ checkUpdateRate 250 = Except.ok 250 :=
  refresh_rate_boundary 249 (by decide)

/-! ### Claim C9 -/

/-- C9: on a modifier-free `q` key the event merge loop exits exactly when
the application is not capturing search-text input; while capturing, `q` is
dispatched as an ordinary character key like any other character. -/
theorem quit_key_dispatch :
    ∀ is_in_search_widget : Bool,
      (dispatchKeyNoModifier is_in_search_widget (KeyCode.char 'q')
          = AppAction.quitLoop ↔ is_in_search_widget = false)
      ∧ dispatchKeyNoModifier true (KeyCode.char 'q') = AppAction.onCharKey 'q'
      ∧ ∀ c : Char, dispatchKeyNoModifier true (KeyCode.char c)
          = AppAction.onCharKey c := by
  intro b
  refine ⟨?_, by decide, fun c => ?_⟩
  · cases b <;> simp [dispatchKeyNoModifier]
  · simp [dispatchKeyNoModifier]

/-- Witness for C9: with search input inactive, `q` quits. -/
theorem quit_key_dispatch_witness :
    dispatchKeyNoModifier false (KeyCode.char 'q') = AppAction.quitLoop :=
  ((quit_key_dispatch false).1).mpr rfl

/-! ### Claim C4 -/

theorem handleUpdate_frozen {γ : Type} (fns : Converters γ) (app : App γ)
    (d : Data) (h : app.is_frozen = true) : handleUpdate fns app d = app := by
  simp [handleUpdate, h]

/-- C4: while frozen, processing any number of `Update` messages leaves the
whole application state (snapshot, accumulated collection, every canvas
projection) unchanged; once the freeze flag is cleared, the next `Update`
replaces the snapshot (re-deriving its process lists) and recomputes every
projection from the extended collection. -/
theorem freeze_update_frame {γ : Type} (fns : Converters γ) (app : App γ)
    (updates : List Data) (d : Data) (h : app.is_frozen = true) :
    updates.foldl (handleUpdate fns) app = app
    ∧ (handleUpdate fns { app with is_frozen := false } d).data
        = handleProcessSortingData app.process_sorting_type
            app.process_sorting_reverse d
    ∧ (handleUpdate fns { app with is_frozen := false } d).data_collection
        = app.data_collection ++ [d]
    ∧ (handleUpdate fns { app with is_frozen := false } d).canvas_data
        = { network_data :=
              fns.convert_network_data_points (app.data_collection ++ [d]),
            disk_data := fns.update_disk_row (app.data_collection ++ [d]),
            temp_sensor_data := fns.update_temp_row (app.data_collection ++ [d]),
            mem_data := fns.update_mem_data_points (app.data_collection ++ [d]),
            swap_data := fns.update_swap_data_points (app.data_collection ++ [d]),
            mem_label := (fns.update_mem_labels (app.data_collection ++ [d])).1,
            swap_label := (fns.update_mem_labels (app.data_collection ++ [d])).2,
            cpu_data := fns.update_cpu_data_points app.show_average_cpu
              (app.data_collection ++ [d]),
            process_data := (fns.filter_process_rows
              (handleProcessSortingData app.process_sorting_type
                app.process_sorting_reverse d)).1,
            grouped_process_data := (fns.filter_process_rows
              (handleProcessSortingData app.process_sorting_type
                app.process_sorting_reverse d)).2 } := by
  refine ⟨?_, rfl, rfl, rfl⟩
  induction updates with
  | nil => rfl
  | cons u us ih =>
    rw [List.foldl_cons, handleUpdate_frozen fns app u h]
    exact ih

/-- Witness for C4 at a frozen concrete state, one buffered update, and the
trivial converter instantiation. -/
theorem freeze_update_frame_witness :
    [emptyData].foldl (handleUpdate trivialConverters) frozenApp = frozenApp
    ∧ (handleUpdate trivialConverters { frozenApp with is_frozen := false }
        emptyData).data_collection
      = frozenApp.data_collection ++ [emptyData] :=
  ⟨(freeze_update_frame trivialConverters frozenApp [emptyData] emptyData rfl).1,
   (freeze_update_frame trivialConverters frozenApp [emptyData] emptyData
      rfl).2.2.1⟩

/-! ### Claim C8 -/

theorem debounce_gap_aux (evs : List (ℕ × InputClass)) :
    ∀ (s : DebounceState) (c : InputClass),
      (∀ x ∈ (debounceRun s evs).filter (fun e => e.2 = c),
        timerOf s c + 20 ≤ x.1)
      ∧ List.Chain' (fun a b => a.1 + 20 ≤ b.1)
          ((debounceRun s evs).filter fun e => e.2 = c) := by
  induction evs with
  | nil => intro s c; simp [debounceRun]
  | cons e rest ih =>
    intro s c
    obtain ⟨t, ec⟩ := e
    cases ec with
    | key =>
      rw [debounceRun]
      by_cases h20 : 20 ≤ t - s.keyboard_timer
      · rw [if_pos h20]
        cases c with
        | key =>
          rw [List.filter_cons_of_pos (by simp)]
          obtain ⟨ihall, ihchain⟩ := ih { s with keyboard_timer := t } InputClass.key
          constructor
          · intro x hx
            rcases List.mem_cons.mp hx with hx | hx
            · rw [hx]
              simp only [timerOf]
              omega
            · have hx' := ihall x hx
              simp only [timerOf] at hx' ⊢
              omega
          · rw [List.chain'_cons']
            refine ⟨?_, ihchain⟩
            intro y hy
            have hy' := ihall y (List.mem_of_mem_head? hy)
            simpa [timerOf] using hy'
        | mouse =>
          rw [List.filter_cons_of_neg (by simp)]
          obtain ⟨ihall, ihchain⟩ := ih { s with keyboard_timer := t } InputClass.mouse
          exact ⟨fun x hx => ihall x hx, ihchain⟩
      · rw [if_neg h20]
        exact ih s c
    | mouse =>
      rw [debounceRun]
      by_cases h20 : 20 ≤ t - s.mouse_timer
      · rw [if_pos h20]
        cases c with
        | key =>
          rw [List.filter_cons_of_neg (by simp)]
          obtain ⟨ihall, ihchain⟩ := ih { s with mouse_timer := t } InputClass.key
          exact ⟨fun x hx => ihall x hx, ihchain⟩
        | mouse =>
          rw [List.filter_cons_of_pos (by simp)]
          obtain ⟨ihall, ihchain⟩ := ih { s with mouse_timer := t } InputClass.mouse
          constructor
          · intro x hx
            rcases List.mem_cons.mp hx with hx | hx
            · rw [hx]
              simp only [timerOf]
              omega
            · have hx' := ihall x hx
              simp only [timerOf] at hx' ⊢
              omega
          · rw [List.chain'_cons']
            refine ⟨?_, ihchain⟩
            intro y hy
            have hy' := ihall y (List.mem_of_mem_head? hy)
            simpa [timerOf] using hy'
      · rw [if_neg h20]
        exact ih s c

theorem debounce_independent (evs : List (ℕ × InputClass)) :
    ∀ (s s' : DebounceState) (c : InputClass), timerOf s c = timerOf s' c →
      (debounceRun s evs).filter (fun e => e.2 = c)
        = debounceRun s' (evs.filter fun e => e.2 = c) := by
  induction evs with
  | nil => intro s s' c _; simp [debounceRun]
  | cons e rest ih =>
    intro s s' c h
    obtain ⟨t, ec⟩ := e
    cases ec with
    | key =>
      cases c with
      | key =>
        have hkt : s.keyboard_timer = s'.keyboard_timer := h
        rw [debounceRun, List.filter_cons_of_pos (by simp), debounceRun]
        by_cases h20 : 20 ≤ t - s.keyboard_timer
        · rw [if_pos h20, if_pos (hkt ▸ h20),
            List.filter_cons_of_pos (by simp)]
          exact congrArg _ (ih _ _ InputClass.key rfl)
        · rw [if_neg h20, if_neg (hkt ▸ h20)]
          exact ih s s' InputClass.key h
      | mouse =>
        rw [debounceRun, List.filter_cons_of_neg (by simp)]
        by_cases h20 : 20 ≤ t - s.keyboard_timer
        · rw [if_pos h20, List.filter_cons_of_neg (by simp)]
          exact ih { s with keyboard_timer := t } s' InputClass.mouse h
        · rw [if_neg h20]
          exact ih s s' InputClass.mouse h
    | mouse =>
      cases c with
      | key =>
        rw [debounceRun, List.filter_cons_of_neg (by simp)]
        by_cases h20 : 20 ≤ t - s.mouse_timer
        · rw [if_pos h20, List.filter_cons_of_neg (by simp)]
          exact ih { s with mouse_timer := t } s' InputClass.key h
        · rw [if_neg h20]
          exact ih s s' InputClass.key h
      | mouse =>
        have hmt : s.mouse_timer = s'.mouse_timer := h
        rw [debounceRun, List.filter_cons_of_pos (by simp), debounceRun]
        by_cases h20 : 20 ≤ t - s.mouse_timer
        · rw [if_pos h20, if_pos (hmt ▸ h20),
            List.filter_cons_of_pos (by simp)]
          exact congrArg _ (ih _ _ InputClass.mouse rfl)
        · rw [if_neg h20, if_neg (hmt ▸ h20)]
          exact ih s s' InputClass.mouse h

/-- C8: an event is forwarded only if at least 20 ms elapsed since the
previously forwarded event of the same class (so any two consecutive
forwarded events of one class are at least 20 ms apart), the two class
timers are independent (running the debounce on one class's sub-trace gives
exactly that class's forwarded events, whatever the other timer holds), and
two same-class events arriving 5 ms apart yield exactly one forwarded
event. -/
theorem input_debounce (s : DebounceState) (evs : List (ℕ × InputClass))
    (t : ℕ) (h : s.keyboard_timer + 20 ≤ t) :
    (∀ c : InputClass, List.Chain' (fun a b => a.1 + 20 ≤ b.1)
        ((debounceRun s evs).filter fun e => e.2 = c))
    ∧ (∀ (c : InputClass) (s' : DebounceState), timerOf s c = timerOf s' c →
        (debounceRun s evs).filter (fun e => e.2 = c)
          = debounceRun s' (evs.filter fun e => e.2 = c))
    ∧ debounceRun s [(t, InputClass.key), (t + 5, InputClass.key)]
        = [(t, InputClass.key)] := by
  refine ⟨fun c => (debounce_gap_aux evs s c).2,
    fun c s' hc => debounce_independent evs s s' c hc, ?_⟩
  have c1 : 20 ≤ t - s.keyboard_timer := by omega
  have c2 : ¬ 20 ≤ (t + 5) - t := by omega
  simp [debounceRun, c1, c2]

/-- Witness for C8: from freshly initialised timers, key events at 20 ms and
25 ms produce exactly the first as forwarded. -/
theorem input_debounce_witness :
    debounceRun { keyboard_timer := 0, mouse_timer := 0 }
        [(20, InputClass.key), (20 + 5, InputClass.key)]
      = [(20, InputClass.key)] :=
  (input_debounce { keyboard_timer := 0, mouse_timer := 0 } [] 20
    (by decide)).2.2

end Bottom
